import Mathlib

/-
Shallow embedding of the wave-order-picking repository
(checker.py and the math_solve ratio-sweep solvers).

Python dictionaries {item: qty} are embedded as association lists
`List (Nat × Int)` (keys unique in every instance produced by the
parsers; `get` mirrors Python's `dict.get(item, 0)`).  Python lists of
indices stay `List Nat`; list indexing `self.orders[order]` is totalised
with `List.getD` (all calls in the repository use in-range indices).
Python/numpy `/` is embedded over `ℚ` with the runtime-type distinction
the checker actually exhibits: a plain-`int` dividend raises
`ZeroDivisionError` on a zero divisor, while a numpy-scalar dividend
(produced by `+= np.sum(...)`) yields `inf`/`-inf`/`nan` instead.
-/

/-- An order's or aisle's sparse item ↦ quantity map (Python dict). -/
def ItemMap : Type := List (Nat × Int)

/-- Python `m.get(item, 0)`. -/
def ItemMap.get (m : ItemMap) (item : Nat) : Int :=
  match m.find? (fun p => p.1 == item) with
  | some p => p.2
  | none => 0

/-- Python `m.keys()` for an association list. -/
def ItemMap.keys (m : ItemMap) : List Nat :=
  m.map Prod.fst

/-- Python `sum(m.values())` / `np.sum(list(m.values()))`. -/
def ItemMap.totalUnits (m : ItemMap) : Int :=
  (m.map Prod.snd).sum

/-- The checker's instance state: fields of class `WaveOrderPicking`
after `read_input` (checker.py lines 4-33). -/
structure WaveOrderPicking where
  orders : List ItemMap
  aisles : List ItemMap
  wave_size_lb : Int
  wave_size_ub : Int

/-- `total_units_picked` accumulation loop shared by
`is_solution_feasible` and `compute_objective_function`
(checker.py lines 48-50 and 68-70). -/
def totalUnitsPicked (W : WaveOrderPicking) (selected_orders : List Nat) : Int :=
  (selected_orders.map (fun o => ItemMap.totalUnits (W.orders.getD o []))).sum

/-- `total_required` for one item (checker.py line 60). -/
def itemDemand (W : WaveOrderPicking) (selected_orders : List Nat) (item : Nat) : Int :=
  (selected_orders.map (fun o => ItemMap.get (W.orders.getD o []) item)).sum

/-- `total_available` for one item (checker.py line 61). -/
def itemSupply (W : WaveOrderPicking) (visited_aisles : List Nat) (item : Nat) : Int :=
  (visited_aisles.map (fun a => ItemMap.get (W.aisles.getD a []) item)).sum

/-- The `required_items` set (checker.py lines 55-57): union of the key
sets of the selected orders, as a duplicate-free list. -/
def requiredItems (W : WaveOrderPicking) (selected_orders : List Nat) : List Nat :=
  ((selected_orders.map (fun o => ItemMap.keys (W.orders.getD o []))).flatten).dedup

/-- `WaveOrderPicking.is_solution_feasible` (checker.py lines 47-65). -/
def is_solution_feasible (W : WaveOrderPicking)
    (selected_orders visited_aisles : List Nat) : Bool :=
  let total_units_picked := totalUnitsPicked W selected_orders
  if ¬ (W.wave_size_lb ≤ total_units_picked ∧ total_units_picked ≤ W.wave_size_ub) then
    false
  else
    (requiredItems W selected_orders).all (fun item =>
      decide (itemDemand W selected_orders item ≤ itemSupply W visited_aisles item))

/-- The runtime type of the accumulated `total_units_picked`
(checker.py lines 68-70): the initial `0` is a plain Python `int`, and
any `+= np.sum(list(...))` promotes it to a numpy scalar; the numeric
value is carried alongside the tag. -/
inductive PyNum where
  | int : Int → PyNum
  | npScalar : Int → PyNum
deriving DecidableEq

/-- Result of the objective's division: a finite value; the numpy
special values `inf` / `-inf` / `nan` (emitted with a `RuntimeWarning`,
not an exception); or a raised `ZeroDivisionError`. -/
inductive DivResult where
  | ok : ℚ → DivResult
  | inf : DivResult
  | negInf : DivResult
  | nan : DivResult
  | zeroDivErr : DivResult
deriving DecidableEq

/-- `total_units_picked` with its runtime type: it stays the plain `int`
`0` exactly when `selected_orders` is empty; otherwise the loop body ran
and it is a numpy scalar holding the sum. -/
def totalUnitsPickedNum (W : WaveOrderPicking)
    (selected_orders : List Nat) : PyNum :=
  match selected_orders with
  | [] => PyNum.int 0
  | _ :: _ => PyNum.npScalar (totalUnitsPicked W selected_orders)

/-- Python `/` applied to the accumulated total and
`len(visited_aisles)`: plain `int / 0` raises `ZeroDivisionError`; a
numpy scalar divided by zero returns `inf`, `-inf` or `nan` according to
the dividend's sign; any nonzero divisor gives the exact quotient. -/
def pyNumDiv (a : PyNum) (n : Nat) : DivResult :=
  match a, n with
  | PyNum.int _, 0 => DivResult.zeroDivErr
  | PyNum.int v, _ => DivResult.ok ((v : ℚ) / (n : ℚ))
  | PyNum.npScalar v, 0 =>
    if 0 < v then DivResult.inf
    else if v < 0 then DivResult.negInf
    else DivResult.nan
  | PyNum.npScalar v, _ => DivResult.ok ((v : ℚ) / (n : ℚ))

/-- `WaveOrderPicking.compute_objective_function` (checker.py lines
67-73): the accumulated total (with its runtime type) divided by the
number of visited aisles. -/
def compute_objective_function (W : WaveOrderPicking)
    (selected_orders visited_aisles : List Nat) : DivResult :=
  pyNumDiv (totalUnitsPickedNum W selected_orders) visited_aisles.length

/-- The deduplication performed by `read_output` (checker.py lines 43-44):
`list(set(xs))`, one duplicate-free representative. -/
def read_output_dedup (xs : List Nat) : List Nat :=
  xs.dedup

/-- Concrete scenario A of the specification: orders
`{0:{0:3}, 1:{0:2,1:2}}`, aisles `{0:{0:5}, 1:{1:2}}`, bounds `[2,5]`. -/
def scenarioA : WaveOrderPicking :=
  { orders := [[(0, 3)], [(0, 2), (1, 2)]]
    aisles := [[(0, 5)], [(1, 2)]]
    wave_size_lb := 2
    wave_size_ub := 5 }

/-
Embedding of the integer-program formulation built by `solve_instance`
(math_solve (pulp).py lines 73-97; the Gurobi variants build the same
constraints, mutating only the aisle-limit right-hand side between sweep
steps).
-/

/-- Decision variables: one binary `x o` per order, one binary `y a` per
aisle. -/
inductive IPVar where
  | x : Nat → IPVar
  | y : Nat → IPVar
deriving DecidableEq

/-- Constraint relation (`<=` or `>=`). -/
inductive IPRel where
  | le : IPRel
  | ge : IPRel
deriving DecidableEq

/-- One linear constraint `Σ coeff·var REL rhs` (linear expressions are
normalised so all variable terms sit on the left). -/
structure IPConstr where
  cname : String
  terms : List (Int × IPVar)
  rel : IPRel
  rhs : Int
deriving DecidableEq

/-- A built model: its constraint list and its (maximised) objective. -/
structure IPModel where
  constrs : List IPConstr
  objective : List (Int × IPVar)
deriving DecidableEq

/-- `item_to_orders` incidence map (math_solve (pulp).py lines 58-61):
for item `i`, the `(order, qty)` pairs in enumeration order. -/
def item_to_orders (orders : List ItemMap) (i : Nat) : List (Nat × Int) :=
  (orders.enum.map (fun p =>
    (p.2.filter (fun q => q.1 == i)).map (fun q => (p.1, q.2)))).flatten

/-- `item_to_aisles` incidence map (math_solve (pulp).py lines 63-66). -/
def item_to_aisles (aisles : List ItemMap) (i : Nat) : List (Nat × Int) :=
  (aisles.enum.map (fun p =>
    (p.2.filter (fun q => q.1 == i)).map (fun q => (p.1, q.2)))).flatten

/-- `total_units[o]` (math_solve (pulp).py line 55), totalised with
default 0 for an out-of-range index. -/
def total_units_at (orders : List ItemMap) (o : Nat) : Int :=
  (orders.map (fun order => ItemMap.totalUnits order)).getD o 0

/-- Terms of the wave-size expression `Σ total_units[o]·x[o]`. -/
def waveTerms (orders : List ItemMap) : List (Int × IPVar) :=
  (List.range orders.length).map (fun o => (total_units_at orders o, IPVar.x o))

/-- `WaveLB`: `Σ total_units[o]·x[o] ≥ wave_size_lb`. -/
def waveLBConstr (orders : List ItemMap) (lb : Int) : IPConstr :=
  ⟨"WaveLB", waveTerms orders, IPRel.ge, lb⟩

/-- `WaveUB`: `Σ total_units[o]·x[o] ≤ wave_size_ub`. -/
def waveUBConstr (orders : List ItemMap) (ub : Int) : IPConstr :=
  ⟨"WaveUB", waveTerms orders, IPRel.le, ub⟩

/-- `Availability_i`: demand of item `i` over selected orders minus its
supply over selected aisles is at most 0. -/
def availConstr (orders aisles : List ItemMap) (i : Nat) : IPConstr :=
  ⟨"Availability_" ++ toString i,
   (item_to_orders orders i).map (fun p => (p.2, IPVar.x p.1)) ++
     (item_to_aisles aisles i).map (fun p => (-p.2, IPVar.y p.1)),
   IPRel.le, 0⟩

/-- `AisleLimit`: `Σ y[a] ≤ k`. -/
def aisleLimitConstr (aisles : List ItemMap) (k : Nat) : IPConstr :=
  ⟨"AisleLimit",
   (List.range aisles.length).map (fun a => ((1 : Int), IPVar.y a)),
   IPRel.le, (k : Int)⟩

/-- The model built for one sweep step `k` (math_solve (pulp).py lines
75-97): wave bounds, then one availability constraint per item present in
some order (loop over `range(n_items)` with the `if item_to_orders[i]`
guard), then the aisle limit, maximising `Σ total_units[o]·x[o]`. -/
def buildModel (orders aisles : List ItemMap) (n_items : Nat)
    (lb ub : Int) (k : Nat) : IPModel :=
  let base := [waveLBConstr orders lb, waveUBConstr orders ub]
  let withAvail := (List.range n_items).foldl
    (fun acc i =>
      if (item_to_orders orders i).isEmpty then acc
      else acc ++ [availConstr orders aisles i]) base
  { constrs := withAvail ++ [aisleLimitConstr aisles k]
    objective := waveTerms orders }

/-- Value of a variable under a 0/1 assignment. -/
def varValue (xv yv : Nat → Bool) : IPVar → Int
  | IPVar.x o => if xv o then 1 else 0
  | IPVar.y a => if yv a then 1 else 0

/-- Value of a linear expression under a 0/1 assignment. -/
def evalTerms (xv yv : Nat → Bool) (ts : List (Int × IPVar)) : Int :=
  (ts.map (fun t => t.1 * varValue xv yv t.2)).sum

/-- Satisfaction of one constraint. -/
def constrSat (xv yv : Nat → Bool) (c : IPConstr) : Bool :=
  match c.rel with
  | IPRel.le => decide (evalTerms xv yv c.terms ≤ c.rhs)
  | IPRel.ge => decide (c.rhs ≤ evalTerms xv yv c.terms)

/-- Read a `List Bool` as an assignment function (false beyond range). -/
def assignOf (bs : List Bool) : Nat → Bool :=
  fun i => bs.getD i false

/-- All 0/1 vectors of a given length. -/
def boolLists : Nat → List (List Bool)
  | 0 => [[]]
  | n + 1 => (boolLists n).flatMap (fun bs => [false :: bs, true :: bs])

/-- A full assignment (encoded by value lists) satisfies every constraint
of the model built for budget `k`. -/
def feasibleAssign (orders aisles : List ItemMap) (n_items : Nat)
    (lb ub : Int) (k : Nat) (xs ys : List Bool) : Bool :=
  (buildModel orders aisles n_items lb ub k).constrs.all
    (constrSat (assignOf xs) (assignOf ys))

/-- All candidate assignments for given variable counts. -/
def allAssignments (no na : Nat) : List (List Bool × List Bool) :=
  (boolLists no).flatMap (fun xs => (boolLists na).map (fun ys => (xs, ys)))

/-- Optimal objective value of the model for budget `k`: the maximum of
the objective over all feasible assignments (`⊥` when none exists). -/
def optValue (orders aisles : List ItemMap) (n_items : Nat)
    (lb ub : Int) (k : Nat) : WithBot Int :=
  (((allAssignments orders.length aisles.length).filter
      (fun p => feasibleAssign orders aisles n_items lb ub k p.1 p.2)).map
    (fun p => evalTerms (assignOf p.1) (assignOf p.2)
      (buildModel orders aisles n_items lb ub k).objective)).maximum

/-
Embedding of the ratio sweep (math_solve (pulp).py lines 69-131; the
Gurobi variant, math_solve.py lines 96-136, runs the same loop mutating
one retained model).  The external ILP solver is abstracted as a function
from the budget `k` to an outcome.
-/

/-- What the external solver reports for one budget: the rounding tests
`x[o].value() > 0.5` / `y[a].value() > 0.5` and the objective value. -/
structure SolverResult where
  xval : Nat → Bool
  yval : Nat → Bool
  obj : ℚ

/-- Outcome of one solver call: optimal, a non-optimal status (the `else`
branch: logged and skipped), or a solver fault (a raised exception, which
`solve_instance` does not catch). -/
inductive SolveOutcome where
  | optimal : SolverResult → SolveOutcome
  | notOptimal : SolveOutcome
  | fault : SolveOutcome

/-- `selected_orders` / `selected_aisles` extracted from an optimal
result (math_solve (pulp).py lines 113-114). -/
def extractSolution (n_orders n_aisles : Nat) (r : SolverResult) :
    List Nat × List Nat :=
  ((List.range n_orders).filter r.xval, (List.range n_aisles).filter r.yval)

/-- The sweep loop over the remaining budgets, carrying
`(best_ratio, best_solution)`; a fault propagates as an exception. -/
def sweepGo (solver : Nat → SolveOutcome) (n_orders n_aisles : Nat) :
    List Nat → ℚ × Option (List Nat × List Nat) →
      Except Unit (ℚ × Option (List Nat × List Nat))
  | [], best => Except.ok best
  | k :: ks, best =>
    match solver k with
    | SolveOutcome.fault => Except.error ()
    | SolveOutcome.notOptimal => sweepGo solver n_orders n_aisles ks best
    | SolveOutcome.optimal r =>
      if best.1 < r.obj / (k : ℚ) then
        sweepGo solver n_orders n_aisles ks
          (r.obj / (k : ℚ), some (extractSolution n_orders n_aisles r))
      else sweepGo solver n_orders n_aisles ks best

/-- The full ratio sweep: `best_ratio = 0`, `best_solution = None`, then
`for k in range(1, k_max + 1)` with `k_max = len(aisles)`
(math_solve (pulp).py lines 69-121). -/
def ratioSweep (solver : Nat → SolveOutcome) (n_orders n_aisles : Nat) :
    Except Unit (ℚ × Option (List Nat × List Nat)) :=
  sweepGo solver n_orders n_aisles (List.range' 1 n_aisles) (0, none)

/-- `if best_solution:` (math_solve (pulp).py line 124) — an output file
is written exactly when the sweep ended without fault and retained a
solution. -/
def writesOutputFile
    (res : Except Unit (ℚ × Option (List Nat × List Nat))) : Bool :=
  match res with
  | Except.ok (_, some _) => true
  | _ => false

/-- Fixture result for budget 1 of `tieSolver`: objective 2, selecting
order 0 and aisle 0. -/
def tieResultOne : SolverResult :=
  ⟨fun o => decide (o = 0), fun a => decide (a = 0), 2⟩

/-- Fixture result for budget 2 of `tieSolver`: objective 4, selecting
everything. -/
def tieResultTwo : SolverResult :=
  ⟨fun _ => true, fun _ => true, 4⟩

/-- Fixture solver: budgets 1 and 2 both attain ratio 2, with different
selections. -/
def tieSolver : Nat → SolveOutcome := fun k =>
  if k = 1 then SolveOutcome.optimal tieResultOne
  else if k = 2 then SolveOutcome.optimal tieResultTwo
  else SolveOutcome.notOptimal

/-- Fixture solver that is never optimal. -/
def barrenSolver : Nat → SolveOutcome := fun _ => SolveOutcome.notOptimal

/-- Fixture solver returning objective 3, order 0 and aisle 0, at every
budget. -/
def unitSolver : Nat → SolveOutcome := fun _ =>
  SolveOutcome.optimal ⟨fun o => decide (o = 0), fun a => decide (a = 0), 3⟩

theorem mem_requiredItems_iff (W : WaveOrderPicking) (sel : List Nat) (item : Nat) :
    item ∈ requiredItems W sel ↔
      ∃ o ∈ sel, item ∈ ItemMap.keys (W.orders.getD o []) := by
  simp [requiredItems, List.mem_dedup, List.mem_flatten]

theorem is_solution_feasible_iff (W : WaveOrderPicking) (sel vis : List Nat) :
    is_solution_feasible W sel vis = true ↔
      (W.wave_size_lb ≤ totalUnitsPicked W sel ∧
        totalUnitsPicked W sel ≤ W.wave_size_ub) ∧
      ∀ item, (∃ o ∈ sel, item ∈ ItemMap.keys (W.orders.getD o [])) →
        itemDemand W sel item ≤ itemSupply W vis item := by
  unfold is_solution_feasible
  by_cases h : W.wave_size_lb ≤ totalUnitsPicked W sel ∧
      totalUnitsPicked W sel ≤ W.wave_size_ub
  · rw [if_neg (not_not_intro h), List.all_eq_true]
    constructor
    · intro hall
      refine ⟨h, ?_⟩
      intro item hitem
      have := hall item ((mem_requiredItems_iff W sel item).2 hitem)
      exact of_decide_eq_true this
    · intro hp item hitem
      exact decide_eq_true
        (hp.2 item ((mem_requiredItems_iff W sel item).1 hitem))
  · rw [if_pos h]
    simp only [Bool.false_eq_true, false_iff, not_and]
    intro hb
    exact absurd hb h

/-- C1: `is_solution_feasible` returns True iff the total units of the
selected orders lie in `[wave_size_lb, wave_size_ub]` and, for every item
appearing in some selected order, the summed demand over selected orders
does not exceed the summed supply over selected aisles. -/
theorem feasibility_characterization (W : WaveOrderPicking) (sel vis : List Nat) :
    is_solution_feasible W sel vis = true ↔
      (W.wave_size_lb ≤ totalUnitsPicked W sel ∧
        totalUnitsPicked W sel ≤ W.wave_size_ub) ∧
      ∀ item, (∃ o ∈ sel, item ∈ ItemMap.keys (W.orders.getD o [])) →
        itemDemand W sel item ≤ itemSupply W vis item :=
  is_solution_feasible_iff W sel vis

/-- C8: on scenario A, selecting order 0 and aisle 0 is feasible and the
objective value is 3. -/
theorem scenarioA_feasible_and_objective :
    is_solution_feasible scenarioA [0] [0] = true ∧
      compute_objective_function scenarioA [0] [0] = DivResult.ok 3 := by
  constructor
  · decide
  · norm_num [compute_objective_function, pyNumDiv, totalUnitsPickedNum,
      totalUnitsPicked, ItemMap.totalUnits, scenarioA]

/-- C5: the claim (and the checker's own `except ZeroDivisionError`
handler, checker.py lines 106-107) says an empty visited-aisle set
signals an exception regardless of the selected orders; but with a
non-empty selection `total_units_picked` is a numpy scalar (`+= np.sum`,
checker.py line 70) whose division by zero returns `inf` with a
`RuntimeWarning` instead of raising.  Evaluating the embedded code at
the failing input: on scenario A, orders `[0]` and no aisles give `inf`
(a returned value, not the error), while only the empty-selection
plain-int `0 / 0` raises; nonzero divisors give the exact quotient. -/
theorem objective_zero_aisles_returns_inf_not_error :
    compute_objective_function scenarioA [0] [] = DivResult.inf ∧
      compute_objective_function scenarioA [0] [] ≠ DivResult.zeroDivErr ∧
      compute_objective_function scenarioA [] [] = DivResult.zeroDivErr := by
  refine ⟨?_, ?_, rfl⟩
  · decide
  · decide

theorem totalUnitsPicked_perm (W : WaveOrderPicking) {sel sel' : List Nat}
    (h : sel.Perm sel') : totalUnitsPicked W sel = totalUnitsPicked W sel' :=
  (h.map (fun o => ItemMap.totalUnits (W.orders.getD o []))).sum_eq

theorem itemDemand_perm (W : WaveOrderPicking) {sel sel' : List Nat}
    (h : sel.Perm sel') (item : Nat) :
    itemDemand W sel item = itemDemand W sel' item :=
  (h.map (fun o => ItemMap.get (W.orders.getD o []) item)).sum_eq

theorem itemSupply_perm (W : WaveOrderPicking) {vis vis' : List Nat}
    (h : vis.Perm vis') (item : Nat) :
    itemSupply W vis item = itemSupply W vis' item :=
  (h.map (fun a => ItemMap.get (W.aisles.getD a []) item)).sum_eq

theorem is_solution_feasible_perm (W : WaveOrderPicking)
    {sel sel' vis vis' : List Nat} (hs : sel.Perm sel') (hv : vis.Perm vis') :
    is_solution_feasible W sel vis = is_solution_feasible W sel' vis' := by
  have h1 := is_solution_feasible_iff W sel vis
  have h2 := is_solution_feasible_iff W sel' vis'
  rw [Bool.eq_iff_iff, h1, h2, totalUnitsPicked_perm W hs]
  constructor
  · rintro ⟨hb, hav⟩
    refine ⟨hb, fun item hex => ?_⟩
    rw [← itemDemand_perm W hs item, ← itemSupply_perm W hv item]
    refine hav item ?_
    obtain ⟨o, ho, hk⟩ := hex
    exact ⟨o, hs.mem_iff.2 ho, hk⟩
  · rintro ⟨hb, hav⟩
    refine ⟨hb, fun item hex => ?_⟩
    rw [itemDemand_perm W hs item, itemSupply_perm W hv item]
    refine hav item ?_
    obtain ⟨o, ho, hk⟩ := hex
    exact ⟨o, hs.mem_iff.1 ho, hk⟩

theorem totalUnitsPickedNum_perm (W : WaveOrderPicking)
    {sel sel' : List Nat} (h : sel.Perm sel') :
    totalUnitsPickedNum W sel = totalUnitsPickedNum W sel' := by
  cases sel with
  | nil =>
    have h' : sel' = [] := h.symm.eq_nil
    subst h'
    rfl
  | cons a t =>
    cases sel' with
    | nil => exact absurd h.eq_nil (by simp)
    | cons b u =>
      simp only [totalUnitsPickedNum]
      rw [totalUnitsPicked_perm W h]

theorem compute_objective_function_perm (W : WaveOrderPicking)
    {sel sel' vis vis' : List Nat} (hs : sel.Perm sel') (hv : vis.Perm vis') :
    compute_objective_function W sel vis =
      compute_objective_function W sel' vis' := by
  unfold compute_objective_function
  rw [totalUnitsPickedNum_perm W hs, hv.length_eq]

/-- C6 counterexample: on scenario A, calling the validator functions
directly with the duplicate list `[0, 0]` does not agree with calling
them on the deduplicated indices (`read_output`'s `list(set(...))`):
the duplicate order index is counted twice. -/
theorem validator_duplicates_counterexample :
    ¬ (is_solution_feasible scenarioA [0, 0] [0] =
         is_solution_feasible scenarioA (read_output_dedup [0, 0])
           (read_output_dedup [0]) ∧
       compute_objective_function scenarioA [0, 0] [0] =
         compute_objective_function scenarioA (read_output_dedup [0, 0])
           (read_output_dedup [0])) := by
  intro h
  exact absurd h.1 (by decide)

/-- C6 (amended): permuting the index lists never changes the feasibility
verdict or the objective value; and because `read_output` deduplicates
with `list(set(...))` before the validator functions run, any two raw
index lists with the same underlying sets produce, after that
deduplication, identical feasibility verdicts and objective values.
(Calling the functions directly on lists with duplicates double-counts
the repeated indices.) -/
theorem validator_set_semantics (W : WaveOrderPicking) :
    (∀ sel sel' vis vis' : List Nat, sel.Perm sel' → vis.Perm vis' →
      is_solution_feasible W sel vis = is_solution_feasible W sel' vis' ∧
      compute_objective_function W sel vis =
        compute_objective_function W sel' vis') ∧
    (∀ rawO rawO' rawA rawA' : List Nat,
      rawO.toFinset = rawO'.toFinset → rawA.toFinset = rawA'.toFinset →
      is_solution_feasible W (read_output_dedup rawO) (read_output_dedup rawA) =
        is_solution_feasible W (read_output_dedup rawO') (read_output_dedup rawA') ∧
      compute_objective_function W (read_output_dedup rawO) (read_output_dedup rawA) =
        compute_objective_function W (read_output_dedup rawO') (read_output_dedup rawA')) := by
  constructor
  · intro sel sel' vis vis' hs hv
    exact ⟨is_solution_feasible_perm W hs hv,
      compute_objective_function_perm W hs hv⟩
  · intro rawO rawO' rawA rawA' hO hA
    have hs : (read_output_dedup rawO).Perm (read_output_dedup rawO') :=
      List.toFinset_eq_iff_perm_dedup.1 hO
    have hv : (read_output_dedup rawA).Perm (read_output_dedup rawA') :=
      List.toFinset_eq_iff_perm_dedup.1 hA
    exact ⟨is_solution_feasible_perm W hs hv,
      compute_objective_function_perm W hs hv⟩

/-- Witness for the amended C6: a concrete permutation and a concrete pair
of raw lists with equal underlying sets. -/
theorem validator_set_semantics_witness :
    (is_solution_feasible scenarioA [0, 1] [0, 1] =
       is_solution_feasible scenarioA [1, 0] [1, 0] ∧
     compute_objective_function scenarioA [0, 1] [0, 1] =
       compute_objective_function scenarioA [1, 0] [1, 0]) ∧
    (is_solution_feasible scenarioA (read_output_dedup [0, 0, 1])
       (read_output_dedup [0]) =
       is_solution_feasible scenarioA (read_output_dedup [1, 0])
         (read_output_dedup [0, 0]) ∧
     compute_objective_function scenarioA (read_output_dedup [0, 0, 1])
       (read_output_dedup [0]) =
       compute_objective_function scenarioA (read_output_dedup [1, 0])
         (read_output_dedup [0, 0])) :=
  ⟨(validator_set_semantics scenarioA).1 [0, 1] [1, 0] [0, 1] [1, 0]
     (by decide) (by decide),
   (validator_set_semantics scenarioA).2 [0, 0, 1] [1, 0] [0] [0, 0]
     (by decide) (by decide)⟩

/-- C10: with an empty selected-order set, feasibility holds iff
`wave_size_lb ≤ 0 ≤ wave_size_ub`, whatever the visited aisles. -/
theorem empty_selection_feasibility (W : WaveOrderPicking) (vis : List Nat) :
    is_solution_feasible W [] vis = true ↔
      W.wave_size_lb ≤ 0 ∧ 0 ≤ W.wave_size_ub := by
  rw [is_solution_feasible_iff]
  simp [totalUnitsPicked]

theorem foldl_append_if {α β : Type} (p : α → Bool) (f : α → β) :
    ∀ (l : List α) (acc : List β),
      l.foldl (fun acc i => if p i then acc else acc ++ [f i]) acc =
        acc ++ (l.filter (fun i => !p i)).map f := by
  intro l
  induction l with
  | nil => intro acc; simp
  | cons i t ih =>
    intro acc
    by_cases hp : p i = true
    · simp [hp, ih]
    · simp [hp, ih]

theorem buildModel_constrs (orders aisles : List ItemMap) (n_items : Nat)
    (lb ub : Int) (k : Nat) :
    (buildModel orders aisles n_items lb ub k).constrs =
      [waveLBConstr orders lb, waveUBConstr orders ub] ++
        ((List.range n_items).filter
            (fun i => !(item_to_orders orders i).isEmpty)).map
          (availConstr orders aisles) ++
        [aisleLimitConstr aisles k] := by
  simp only [buildModel]
  rw [foldl_append_if (fun i => (item_to_orders orders i).isEmpty)
    (availConstr orders aisles) (List.range n_items)
    [waveLBConstr orders lb, waveUBConstr orders ub]]

/-- C2: for every instance data, incidence index and budget `k`, the
built model contains exactly the two wave-size constraints, one
availability constraint per item appearing in at least one order and none
for undemanded items, the aisle-budget constraint `Σ y[a] ≤ k`, and the
maximisation objective `Σ total_units[o]·x[o]`. -/
theorem formulation_exact_constraints (orders aisles : List ItemMap)
    (n_items : Nat) (lb ub : Int) (k : Nat) :
    (buildModel orders aisles n_items lb ub k).constrs =
      [waveLBConstr orders lb, waveUBConstr orders ub] ++
        ((List.range n_items).filter
            (fun i => !(item_to_orders orders i).isEmpty)).map
          (availConstr orders aisles) ++
        [aisleLimitConstr aisles k] ∧
    (buildModel orders aisles n_items lb ub k).objective = waveTerms orders :=
  ⟨buildModel_constrs orders aisles n_items lb ub k, rfl⟩

theorem feasibleAssign_mono (orders aisles : List ItemMap) (n_items : Nat)
    (lb ub : Int) {k1 k2 : Nat} (hk : k1 ≤ k2) (xs ys : List Bool)
    (h : feasibleAssign orders aisles n_items lb ub k1 xs ys = true) :
    feasibleAssign orders aisles n_items lb ub k2 xs ys = true := by
  unfold feasibleAssign at h ⊢
  rw [buildModel_constrs] at h ⊢
  simp only [List.all_append, List.all_cons, List.all_nil,
    Bool.and_eq_true, Bool.and_true] at h ⊢
  refine ⟨h.1, ?_⟩
  have hA := h.2
  simp only [constrSat, aisleLimitConstr, decide_eq_true_eq] at hA ⊢
  refine le_trans hA ?_
  exact_mod_cast hk

theorem maximum_le_of_sublist {l1 l2 : List Int} (h : l1.Sublist l2) :
    l1.maximum ≤ l2.maximum := by
  cases hm : l1.maximum with
  | bot => exact bot_le
  | coe m =>
    exact List.le_maximum_of_mem' (h.subset (List.maximum_mem hm))

theorem optValue_mono (orders aisles : List ItemMap) (n_items : Nat)
    (lb ub : Int) {k1 k2 : Nat} (hk : k1 ≤ k2) :
    optValue orders aisles n_items lb ub k1 ≤
      optValue orders aisles n_items lb ub k2 := by
  unfold optValue
  apply maximum_le_of_sublist
  apply List.Sublist.map
  apply List.monotone_filter_right
  intro p hp
  exact feasibleAssign_mono orders aisles n_items lb ub hk p.1 p.2 hp

/-- C4: for all budgets `k1 ≤ k2`, every assignment feasible under budget
`k1` is feasible under budget `k2` (only the aisle-limit right-hand side
differs), hence the optimal objective value for `k1` is at most that for
`k2`. -/
theorem optimum_monotone_in_aisle_budget (orders aisles : List ItemMap)
    (n_items : Nat) (lb ub : Int) {k1 k2 : Nat} (hk : k1 ≤ k2) :
    (∀ xs ys, feasibleAssign orders aisles n_items lb ub k1 xs ys = true →
        feasibleAssign orders aisles n_items lb ub k2 xs ys = true) ∧
    optValue orders aisles n_items lb ub k1 ≤
      optValue orders aisles n_items lb ub k2 :=
  ⟨fun xs ys h => feasibleAssign_mono orders aisles n_items lb ub hk xs ys h,
   optValue_mono orders aisles n_items lb ub hk⟩

/-- Witness for C4: concrete instance, budgets 1 ≤ 2. -/
theorem optimum_monotone_in_aisle_budget_witness :
    optValue [[(0, 1)]] [[(0, 1)], [(1, 1)]] 2 0 1 1 ≤
      optValue [[(0, 1)]] [[(0, 1)], [(1, 1)]] 2 0 1 2 :=
  (optimum_monotone_in_aisle_budget [[(0, 1)]] [[(0, 1)], [(1, 1)]] 2 0 1
    (by decide)).2

theorem sweepGo_append (solver : Nat → SolveOutcome) (no na : Nat) :
    ∀ (l1 l2 : List Nat) (best : ℚ × Option (List Nat × List Nat)),
      sweepGo solver no na (l1 ++ l2) best =
        match sweepGo solver no na l1 best with
        | Except.ok b => sweepGo solver no na l2 b
        | Except.error e => Except.error e := by
  intro l1
  induction l1 with
  | nil => intro l2 best; rfl
  | cons k ks ih =>
    intro l2 best
    cases hk : solver k with
    | fault => simp only [List.cons_append, sweepGo, hk]
    | notOptimal =>
      simp only [List.cons_append, sweepGo, hk]
      exact ih l2 best
    | optimal r =>
      simp only [List.cons_append, sweepGo, hk]
      by_cases h : best.1 < r.obj / (k : ℚ)
      · simp only [if_pos h]
        exact ih l2 _
      · simp only [if_neg h]
        exact ih l2 best

theorem sweepGo_no_update (solver : Nat → SolveOutcome) (no na : Nat) :
    ∀ (ks : List Nat) (best : ℚ × Option (List Nat × List Nat)),
      (∀ k ∈ ks, solver k ≠ SolveOutcome.fault) →
      (∀ k ∈ ks, ∀ r, solver k = SolveOutcome.optimal r →
        r.obj / (k : ℚ) ≤ best.1) →
      sweepGo solver no na ks best = Except.ok best := by
  intro ks
  induction ks with
  | nil => intro best _ _; rfl
  | cons k ks ih =>
    intro best hnf hle
    cases hk : solver k with
    | fault => exact absurd hk (hnf k (List.mem_cons_self k ks))
    | notOptimal =>
      simp only [sweepGo, hk]
      exact ih best (fun k' h' => hnf k' (List.mem_cons_of_mem k h'))
        (fun k' h' => hle k' (List.mem_cons_of_mem k h'))
    | optimal r =>
      simp only [sweepGo, hk]
      rw [if_neg (not_lt.2 (hle k (List.mem_cons_self k ks) r hk))]
      exact ih best (fun k' h' => hnf k' (List.mem_cons_of_mem k h'))
        (fun k' h' => hle k' (List.mem_cons_of_mem k h'))

theorem sweepGo_stays_below (solver : Nat → SolveOutcome) (no na : Nat)
    (m : ℚ) :
    ∀ (ks : List Nat) (best : ℚ × Option (List Nat × List Nat)),
      (∀ k ∈ ks, solver k ≠ SolveOutcome.fault) →
      (∀ k ∈ ks, ∀ r, solver k = SolveOutcome.optimal r →
        r.obj / (k : ℚ) < m) →
      best.1 < m →
      ∃ best', sweepGo solver no na ks best = Except.ok best' ∧
        best'.1 < m := by
  intro ks
  induction ks with
  | nil => intro best _ _ hb; exact ⟨best, rfl, hb⟩
  | cons k ks ih =>
    intro best hnf hlt hb
    cases hk : solver k with
    | fault => exact absurd hk (hnf k (List.mem_cons_self k ks))
    | notOptimal =>
      simp only [sweepGo, hk]
      exact ih best (fun k' h' => hnf k' (List.mem_cons_of_mem k h'))
        (fun k' h' => hlt k' (List.mem_cons_of_mem k h')) hb
    | optimal r =>
      simp only [sweepGo, hk]
      by_cases hcmp : best.1 < r.obj / (k : ℚ)
      · simp only [if_pos hcmp]
        exact ih _ (fun k' h' => hnf k' (List.mem_cons_of_mem k h'))
          (fun k' h' => hlt k' (List.mem_cons_of_mem k h'))
          (hlt k (List.mem_cons_self k ks) r hk)
      · simp only [if_neg hcmp]
        exact ih best (fun k' h' => hnf k' (List.mem_cons_of_mem k h'))
          (fun k' h' => hlt k' (List.mem_cons_of_mem k h')) hb

/-- C3: the sweep's result is determined by solver outcomes on every
budget `1 .. n_aisles`; when `k1` in that range attains the maximum ratio
(every budget's ratio is `≤` it, strictly below it for budgets before
`k1`, e.g. when later budgets merely tie), the retained solution is the
one extracted at `k1`, under the strict `>` comparison that starts from
ratio 0. -/
theorem sweep_lowest_budget_wins (solver : Nat → SolveOutcome)
    (no na k1 : Nat) (r1 : SolverResult)
    (hk1 : k1 ∈ List.range' 1 na)
    (hopt : solver k1 = SolveOutcome.optimal r1)
    (hpos : 0 < r1.obj / (k1 : ℚ))
    (hnf : ∀ k ∈ List.range' 1 na, solver k ≠ SolveOutcome.fault)
    (hmax : ∀ k ∈ List.range' 1 na, ∀ r, solver k = SolveOutcome.optimal r →
      r.obj / (k : ℚ) ≤ r1.obj / (k1 : ℚ))
    (hfirst : ∀ k ∈ List.range' 1 na, k < k1 → ∀ r,
      solver k = SolveOutcome.optimal r →
        r.obj / (k : ℚ) < r1.obj / (k1 : ℚ)) :
    ratioSweep solver no na =
      Except.ok (r1.obj / (k1 : ℚ), some (extractSolution no na r1)) := by
  have hk1' : 1 ≤ k1 ∧ k1 < 1 + na := List.mem_range'_1.1 hk1
  have hsplit : List.range' 1 na =
      List.range' 1 (k1 - 1) ++ k1 :: List.range' (k1 + 1) (na - k1) := by
    have h1 : List.range' 1 (k1 - 1) ++ List.range' k1 (na - k1 + 1) =
        List.range' 1 na := by
      have := List.range'_append_1 1 (k1 - 1) (na - k1 + 1)
      rw [show 1 + (k1 - 1) = k1 by omega] at this
      rw [show na - k1 + 1 + (k1 - 1) = na by omega] at this
      exact this
    have h2 : List.range' k1 (na - k1 + 1) =
        k1 :: List.range' (k1 + 1) (na - k1) := List.range'_succ k1 (na - k1) 1
    rw [← h1, h2]
  have hmemL : ∀ k ∈ List.range' 1 (k1 - 1), k ∈ List.range' 1 na ∧ k < k1 := by
    intro k hk
    have := List.mem_range'_1.1 hk
    exact ⟨List.mem_range'_1.2 ⟨this.1, by omega⟩, by omega⟩
  have hmemR : ∀ k ∈ List.range' (k1 + 1) (na - k1), k ∈ List.range' 1 na := by
    intro k hk
    have := List.mem_range'_1.1 hk
    exact List.mem_range'_1.2 ⟨by omega, by omega⟩
  obtain ⟨best', hrun, hlt⟩ := sweepGo_stays_below solver no na
    (r1.obj / (k1 : ℚ)) (List.range' 1 (k1 - 1)) (0, none)
    (fun k hk => hnf k (hmemL k hk).1)
    (fun k hk r hr => hfirst k (hmemL k hk).1 (hmemL k hk).2 r hr)
    hpos
  rw [ratioSweep, hsplit, sweepGo_append, hrun]
  simp only [sweepGo, hopt]
  rw [if_pos hlt]
  exact sweepGo_no_update solver no na (List.range' (k1 + 1) (na - k1)) _
    (fun k hk => hnf k (hmemR k hk))
    (fun k hk r hr => hmax k (hmemR k hk) r hr)

/-- Witness for C3: two budgets tie at ratio 2 (objective 2 at k = 1,
objective 4 at k = 2) and the sweep returns the k = 1 selection. -/
theorem sweep_lowest_budget_wins_witness :
    ratioSweep tieSolver 1 2 = Except.ok ((2 : ℚ), some ([0], [0])) := by
  have h := sweep_lowest_budget_wins tieSolver 1 2 1 tieResultOne
    (by decide)
    (by rfl)
    (by norm_num [tieResultOne])
    (by
      intro k hk
      fin_cases hk <;> intro hcon <;> simp [tieSolver] at hcon)
    (by
      intro k hk r hr
      fin_cases hk <;> simp [tieSolver] at hr <;> subst hr <;>
        norm_num [tieResultOne, tieResultTwo])
    (by
      intro k hk hklt
      fin_cases hk <;> omega)
  rw [h]
  norm_num [tieResultOne, extractSolution]
  exact ⟨by decide, by decide⟩

/-- C7: when no budget in `1 .. n_aisles` yields an optimal result whose
ratio exceeds the initial best ratio 0 (and no call faults), the sweep
ends with `best_solution = None`: it reports no solution, writes no
output file, and this outcome is not the error outcome a solver fault
produces. -/
theorem sweep_no_solution_reported (solver : Nat → SolveOutcome)
    (no na : Nat)
    (hnf : ∀ k ∈ List.range' 1 na, solver k ≠ SolveOutcome.fault)
    (hnp : ∀ k ∈ List.range' 1 na, ∀ r, solver k = SolveOutcome.optimal r →
      r.obj / (k : ℚ) ≤ 0) :
    ratioSweep solver no na = Except.ok (0, none) ∧
      writesOutputFile (ratioSweep solver no na) = false ∧
      ∀ e, ratioSweep solver no na ≠ Except.error e := by
  have h := sweepGo_no_update solver no na (List.range' 1 na) (0, none)
    hnf hnp
  refine ⟨h, ?_, ?_⟩
  · rw [show ratioSweep solver no na = Except.ok (0, none) from h]
    rfl
  · intro e hcon
    rw [show ratioSweep solver no na = Except.ok (0, none) from h] at hcon
    exact Except.noConfusion hcon

/-- Witness for C7: a solver that is never optimal on a two-aisle
instance. -/
theorem sweep_no_solution_reported_witness :
    ratioSweep barrenSolver 3 2 = Except.ok (0, none) ∧
      writesOutputFile (ratioSweep barrenSolver 3 2) = false ∧
      ∀ e, ratioSweep barrenSolver 3 2 ≠ Except.error e :=
  sweep_no_solution_reported barrenSolver 3 2
    (by intro k hk; simp [barrenSolver])
    (by intro k hk r hr; simp [barrenSolver] at hr)

theorem sweepGo_retained_invariant (solver : Nat → SolveOutcome)
    (orders : List ItemMap) (na : Nat)
    (hcons : ∀ k r, solver k = SolveOutcome.optimal r →
      r.obj = ((((List.range orders.length).filter r.xval).map
        (total_units_at orders)).sum : Int)) :
    ∀ (ks : List Nat) (best : ℚ × Option (List Nat × List Nat)),
      0 ≤ best.1 →
      (∀ sO sA, best.2 = some (sO, sA) → 0 < best.1 ∧ sO ≠ []) →
      ∀ b selO selA,
        sweepGo solver orders.length na ks best =
          Except.ok (b, some (selO, selA)) →
        0 < b ∧ selO ≠ [] := by
  intro ks
  induction ks with
  | nil =>
    intro best hb hinv b selO selA hres
    simp only [sweepGo, Except.ok.injEq] at hres
    subst hres
    exact hinv selO selA rfl
  | cons k ks ih =>
    intro best hb hinv b selO selA hres
    cases hk : solver k with
    | fault =>
      simp only [sweepGo, hk] at hres
      exact Except.noConfusion hres
    | notOptimal =>
      simp only [sweepGo, hk] at hres
      exact ih best hb hinv b selO selA hres
    | optimal r =>
      simp only [sweepGo, hk] at hres
      by_cases hcmp : best.1 < r.obj / (k : ℚ)
      · rw [if_pos hcmp] at hres
        have hq : 0 < r.obj / (k : ℚ) := lt_of_le_of_lt hb hcmp
        refine ih _ (le_of_lt hq) ?_ b selO selA hres
        intro sO sA hs
        injection hs with hs'
        refine ⟨hq, ?_⟩
        have hfil : (List.range orders.length).filter r.xval = sO :=
          congrArg Prod.fst hs'
        have hobj : 0 < r.obj := by
          rcases Nat.eq_zero_or_pos k with hk0 | hk0
          · exfalso
            rw [hk0] at hq
            simp at hq
          · have hkq : (0 : ℚ) < (k : ℚ) := by exact_mod_cast hk0
            rcases div_pos_iff.1 hq with ⟨h1, _⟩ | ⟨_, h2⟩
            · exact h1
            · linarith
        rw [hcons k r hk] at hobj
        have hsum : (0 : Int) <
            (((List.range orders.length).filter r.xval).map
              (total_units_at orders)).sum := by exact_mod_cast hobj
        intro hnil
        rw [hfil, hnil] at hsum
        simp at hsum
      · rw [if_neg hcmp] at hres
        exact ih best hb hinv b selO selA hres

/-- C9: if the sweep ends with a retained solution (so an output file is
written), the retained best ratio is strictly positive (it starts at 0
and is only replaced under strict `>`), and — for a solver whose reported
objective equals the formulation objective of its reported assignment —
the retained selected-order list is non-empty: a budget whose optimum has
zero total units can never become the retained solution. -/
theorem retained_solution_positive_and_nonempty (solver : Nat → SolveOutcome)
    (orders : List ItemMap) (na : Nat) (b : ℚ) (selO selA : List Nat)
    (hcons : ∀ k r, solver k = SolveOutcome.optimal r →
      r.obj = ((((List.range orders.length).filter r.xval).map
        (total_units_at orders)).sum : Int))
    (hres : ratioSweep solver orders.length na =
      Except.ok (b, some (selO, selA))) :
    0 < b ∧ selO ≠ [] :=
  sweepGo_retained_invariant solver orders na hcons (List.range' 1 na)
    (0, none) le_rfl (fun _ _ h => Option.noConfusion h) b selO selA hres

/-- Witness for C9: a consistent solver with objective 3 on a one-order,
one-aisle instance; applying the invariant at its concrete sweep run. -/
theorem retained_solution_positive_and_nonempty_witness :
    0 < (3 : ℚ) ∧ ([0] : List Nat) ≠ [] :=
  retained_solution_positive_and_nonempty unitSolver [[(0, 3)]] 1 3 [0] [0]
    (by
      intro k r hr
      simp [unitSolver] at hr
      subst hr
      decide)
    (by
      rw [ratioSweep]
      show sweepGo unitSolver 1 1 [1] (0, none) = _
      simp only [sweepGo, unitSolver]
      rw [if_pos (by norm_num : (0 : ℚ) < 3 / ((1 : Nat) : ℚ))]
      norm_num [extractSolution]
      decide)
